import Mathlib

/-!
Verification of the aggregation and query-routing core of the Sales-Data-Analyzer
repository, as a shallow embedding in Lean 4.

Conventions of the embedding:
* Python strings are Lean `String`; `str.lower()` is modelled by mapping
  `Char.toLower` over the characters (the source only ever matches ASCII
  keywords, for which this coincides with Python).
* Python `pat in s` substring tests are modelled by `strHas s pat`.
* pandas numeric values are `Rat`; a value that pandas would report as NaN
  (for example the mean of an empty series) is modelled as `none : Option Rat`.
* pandas DataFrames are lists of `Row` records (or `RawRow` where missing
  values matter); `groupby(...)[col].sum()` is modelled by listing the
  distinct keys in sorted order, pairing each with the sum over the matching
  rows, exactly as pandas does with its default `sort=True`.
* Exceptions are modelled with `Except String`; a caught exception that the
  source converts to a user-facing message is the corresponding `.error`.
-/

/-! ## String utilities: lower-casing, substring search, whitespace split -/

/-- Model of Python `str.lower()`: map `Char.toLower` over the characters. -/
def lowerStr (s : String) : String := ⟨s.data.map Char.toLower⟩

/-- Does the character list `s` start with the pattern `p`? -/
def startsWithL : List Char → List Char → Bool
  | [], _ => true
  | _ :: _, [] => false
  | p :: ps, c :: cs => p == c && startsWithL ps cs

/-- Does the pattern occur as a contiguous substring of `s`?  Model of
Python `pat in s` (scan every suffix). -/
def hasSubstrL : List Char → List Char → Bool
  | pat, [] => startsWithL pat []
  | pat, c :: cs => startsWithL pat (c :: cs) || hasSubstrL pat cs

/-- Model of Python `pat in s` on strings. -/
def strHas (s pat : String) : Bool := hasSubstrL pat.data s.data

/-- Helper for `wordsOf`: accumulate the current word (reversed) while
scanning the remaining characters. -/
def wordsAux (acc : List Char) : List Char → List (List Char)
  | [] => if acc.isEmpty then [] else [acc.reverse]
  | c :: cs =>
    if c.isWhitespace then
      if acc.isEmpty then wordsAux [] cs else acc.reverse :: wordsAux [] cs
    else wordsAux (c :: acc) cs

/-- Model of Python `str.split()` with no argument: split on whitespace
runs, dropping empty pieces. -/
def wordsOf (s : String) : List String := (wordsAux [] s.data).map fun w => ⟨w⟩

/-- Model of Python `str.isdigit()` for ASCII: nonempty and all characters
are decimal digits. -/
def isDigitTok (t : String) : Bool := !t.data.isEmpty && t.data.all (·.isDigit)

/-- Model of Python `int(...)` on a string of decimal digits. -/
def digitsToNat (cs : List Char) : Nat :=
  cs.foldl (fun a c => a * 10 + (c.toNat - 48)) 0

/-- Byte-lexicographic strict order on character lists, used only to model
the deterministic sorted key order that pandas `groupby(sort=True)` uses. -/
def ltCharsB : List Char → List Char → Bool
  | [], [] => false
  | [], _ :: _ => true
  | _ :: _, [] => false
  | a :: as, b :: bs => a < b || (a == b && ltCharsB as bs)

/-- Strict lexicographic order on strings (Bool valued). -/
def strLtB (a b : String) : Bool := ltCharsB a.data b.data

/-- Lexicographic order on (make, model) keys, as pandas sorts a two-level
group index. -/
def pairLeB (a b : String × String) : Bool :=
  strLtB a.1 b.1 || (a.1 == b.1 && !strLtB b.2 a.2)

/-- First-occurrence deduplication, the order `pandas.Series.unique()`
returns values in. -/
def uniqueFirst {α : Type} [DecidableEq α] : List α → List α
  | [] => []
  | x :: xs => x :: (uniqueFirst xs).filter fun y => decide (y ≠ x)

/-- Insertion step of the deterministic sort used to model pandas sorted
outputs: place `x` before the first element it compares `le` to. -/
def insertB {α : Type} (le : α → α → Bool) (x : α) : List α → List α
  | [] => [x]
  | y :: ys => if le x y then x :: y :: ys else y :: insertB le x ys

/-- Insertion sort by a Bool comparison.  Models the deterministic sorted
order of pandas groupby keys and of `sort_values` (pandas leaves the order
of ties unspecified; the claims never depend on ties). -/
def sortB {α : Type} (le : α → α → Bool) : List α → List α
  | [] => []
  | x :: xs => insertB le x (sortB le xs)

/-! ## Data model -/

/-- One sales record as the analysis code sees it after loading: the five
required columns plus Region, and the derived Revenue column, which is
absent (`none`) at load time and only materialised in place by the ranking
handler for revenue queries. -/
structure Row where
  year : Nat
  make : String
  model : String
  region : String
  quantity : Rat
  price : Rat
  revenue : Option Rat := none
deriving DecidableEq, Repr

/-- A row in which make, model and quantity may be missing (pandas NaN),
used to model `_get_top_make_model`, the one operation whose source handles
missing values explicitly via `dropna`. -/
structure RawRow where
  year : Nat
  make : Option String
  model : Option String
  region : Option String
  quantity : Option Rat
  price : Option Rat
deriving DecidableEq, Repr

/-- The four query categories of `_process_query`. -/
inductive Category where
  | projection
  | comparison
  | ranking
  | general
deriving DecidableEq, Repr

/-- The ranking metric chosen by `_handle_ranking_query`: the pandas column
name it sums (`Quantity`, `Price`, or the computed `Revenue`). -/
inductive Metric where
  | quantity
  | price
  | revenue
deriving DecidableEq, Repr

/-! ## Query router (`_process_query`, lines 58-70 of sales_analysis_crew.py) -/

/-- Keywords of the projection branch. -/
def projectionKeywords : List String := ["projection", "forecast", "predict"]

/-- Keywords of the comparison branch. -/
def comparisonKeywords : List String := ["compare", "vs", "versus"]

/-- Keywords of the ranking branch. -/
def rankingKeywords : List String := ["top", "best", "worst", "ranking"]

/-- Embedding of the routing logic of `_process_query`: lowercase the query
and test the keyword groups as substrings, first match wins. -/
def classify (query : String) : Category :=
  let ql := lowerStr query
  if projectionKeywords.any (fun kw => strHas ql kw) then .projection
  else if comparisonKeywords.any (fun kw => strHas ql kw) then .comparison
  else if rankingKeywords.any (fun kw => strHas ql kw) then .ranking
  else .general

/-! ## Aggregator (data_analzyer.py) -/

/-- The per-step relative changes that `Series.pct_change()` produces after
its leading NaN: for consecutive totals `p, c` the entry `(c - p) / p`.
The leading NaN is dropped here because the only consumer, `.mean()`,
skips NaN entries.  A zero previous total (pandas would produce an
infinite entry) is outside the modelled domain; theorems assume positive
totals. -/
def pctChanges (ts : List Rat) : List Rat :=
  List.zipWith (fun p c => (c - p) / p) ts ts.tail

/-- Embedding of `yearly_sales.pct_change().mean()` as used by
`_calculate_yearly_growth` and `_calculate_growth_rate`: the mean of the
per-step changes, or `none` (pandas NaN) when there are none, i.e. when
fewer than two periods exist. -/
def growthRate (ts : List Rat) : Option Rat :=
  let cs := pctChanges ts
  if cs.isEmpty then none else some (cs.sum / cs.length)

/-- The distinct years of the record set in ascending order, as the index
of `data.groupby('Year')['Quantity'].sum()`. -/
def yearKeys (rows : List Row) : List Nat :=
  sortB (fun a b => decide (a ≤ b)) (uniqueFirst (rows.map (·.year)))

/-- Embedding of `data.groupby('Year')['Quantity'].sum()`: each distinct
year (ascending) paired with the summed quantity of its rows. -/
def totalByYear (rows : List Row) : List (Nat × Rat) :=
  (yearKeys rows).map fun y =>
    (y, ((rows.filter fun r => decide (r.year = y)).map (·.quantity)).sum)

/-- Embedding of `_calculate_yearly_growth`: group quantity by year, then
mean of the percentage changes of the per-year totals (NaN as `none`). -/
def calculateYearlyGrowth (rows : List Row) : Option Rat :=
  growthRate ((totalByYear rows).map (·.2))

/-- The result record of `get_yearly_trends` (the query-relevant fields:
per-year totals, per-make and per-region yearly breakdowns, growth rate). -/
structure Trends where
  totalByYear : List (Nat × Rat)
  byMake : List (String × List (Nat × Rat))
  byRegion : List ((Nat × String) × Rat)
  growthRate : Option Rat
deriving DecidableEq, Repr

/-- The distinct regions paired with years, in first-appearance order, for
the (Year, Region) grouping of `get_yearly_trends`. -/
def yearRegionKeys (rows : List Row) : List (Nat × String) :=
  uniqueFirst (rows.map fun r => (r.year, r.region))

/-- Embedding of `get_yearly_trends` (data_analzyer.py lines 28-47).  The
source first reassigns `data['Year'] = pd.to_datetime(data['Year'].astype(str))`,
an in-place column write whose values round-trip unchanged (each year maps
to the same calendar point); the returned store component reflects that
write.  The dictionary fields are the embedded groupings. -/
def getYearlyTrends (rows : List Row) : Trends × List Row :=
  let rows2 := rows.map fun r => { r with year := r.year }
  (⟨totalByYear rows,
    (uniqueFirst (rows.map (·.make))).map (fun mk =>
      (mk, totalByYear (rows.filter fun r => decide (r.make = mk)))),
    (yearRegionKeys rows).map (fun k =>
      (k, ((rows.filter fun r => decide (r.year = k.1 ∧ r.region = k.2)).map
            (·.quantity)).sum)),
    growthRate ((totalByYear rows).map (·.2))⟩,
   rows2)

/-- Validity test of `_get_top_make_model`: the `dropna` over the columns
Make, Model, Quantity keeps a row iff all three are present. -/
def validRow (r : RawRow) : Bool :=
  r.make.isSome && r.model.isSome && r.quantity.isSome

/-- The (make, model) key of a raw row, for rows that passed `dropna`. -/
def rawKey (r : RawRow) : String × String :=
  (r.make.getD "", r.model.getD "")

/-- Embedding of `_get_top_make_model` (data_analzyer.py lines 66-84):
empty data and all-invalid data return sentinel strings; otherwise group
the cleaned rows by (make, model), sum quantity per group (keys in pandas
sorted order), and return the first key attaining the maximum sum
(`Series.idxmax`), formatted as "make model". -/
def getTopMakeModel (rows : List RawRow) : String :=
  if rows.isEmpty then "No data available"
  else
    let clean := rows.filter validRow
    if clean.isEmpty then "No valid data available"
    else
      let keys := sortB pairLeB (uniqueFirst (clean.map rawKey))
      let grouped := keys.map fun k =>
        (k, ((clean.filter fun r => decide (rawKey r = k)).map
              (fun r => r.quantity.getD 0)).sum)
      match grouped with
      | [] => "No sales data available"
      | g :: gs =>
        let top := gs.foldl (fun best y => if best.2 < y.2 then y else best) g
        top.1.1 ++ " " ++ top.1.2

/-- Whether `get_sales_summary` succeeds, i.e. whether its result dict has
the `yearly_growth` key.  On an empty record set the expression
`data.groupby('Region')['Quantity'].sum().idxmax()` raises, the catch-all
turns the whole summary into an error dict, and the key is absent; on a
nonempty set every field computes (NaN values included), so the key is
present. -/
def summaryHasYearlyGrowth (rows : List Row) : Bool := !rows.isEmpty

/-! ## Query handlers (sales_analysis_crew.py) -/

/-- The structured content of the ranking answer built by
`_handle_ranking_query`: the requested count, the metric column, the sort
direction, and the ordered (make, model) groups with their summed metric
values (the text formatting of the source is a presentation detail not
modelled). -/
structure RankOutput where
  n : Nat
  metric : Metric
  ascending : Bool
  items : List ((String × String) × Rat)
deriving DecidableEq, Repr

/-- The value of a row under a ranking metric; for `Revenue` the source
materialises `data['Quantity'] * data['Price']` and sums that column. -/
def metricValue (m : Metric) (r : Row) : Rat :=
  match m with
  | .quantity => r.quantity
  | .price => r.price
  | .revenue => r.quantity * r.price

/-- Embedding of the top-N parsing of `_handle_ranking_query`: when "top"
occurs as a substring of the lowered query, `words.index("top")` looks up
the exact token; a missing token raises ValueError (message
"top is not in list", quotes elided), otherwise n becomes the following
token when that token is numeric, else stays 3. -/
def parseTopN (ql : String) : Except String Nat :=
  if strHas ql "top" then
    let ws := wordsOf ql
    match ws.findIdx? (fun w => w == "top") with
    | none => .error "top is not in list"
    | some i =>
      match ws[i + 1]? with
      | some tok => if isDigitTok tok then .ok (digitsToNat tok.data) else .ok 3
      | none => .ok 3
  else .ok 3

/-- The distinct (make, model) pairs of the record set in first-appearance
order. -/
def mmKeys (rows : List Row) : List (String × String) :=
  uniqueFirst (rows.map fun r => (r.make, r.model))

/-- Embedding of `data.groupby(['Make','Model'])[by].sum()`: the distinct
(make, model) keys in pandas sorted order, each paired with the summed
metric over its rows. -/
def groupSumMM (m : Metric) (rows : List Row) : List ((String × String) × Rat) :=
  (sortB pairLeB (mmKeys rows)).map fun k =>
    (k, ((rows.filter fun r => decide (r.make = k.1 ∧ r.model = k.2)).map
          (metricValue m)).sum)

/-- Comparison order of `Series.sort_values(ascending=...)` on the summed
metric values. -/
def rankLe (asc : Bool) (a b : (String × String) × Rat) : Bool :=
  if asc then decide (a.2 ≤ b.2) else decide (b.2 ≤ a.2)

/-- Embedding of `_handle_ranking_query` (sales_analysis_crew.py lines
140-177).  Returns the structured answer (or the caught-exception message)
together with the record store after the call: a revenue query assigns the
Revenue column in place before grouping, every other path leaves the store
untouched.  The n parsing runs first, so a raised ValueError prevents the
assignment. -/
def handleRankingQuery (rows : List Row) (query : String) :
    Except String RankOutput × List Row :=
  let ql := lowerStr query
  match parseTopN ql with
  | .error e => (.error ("Could not generate rankings: " ++ e), rows)
  | .ok n =>
    let metric : Metric :=
      if strHas ql "expensive" then .price
      else if strHas ql "revenue" then .revenue
      else .quantity
    let rows2 :=
      if !strHas ql "expensive" && strHas ql "revenue" then
        rows.map fun r => { r with revenue := some (r.quantity * r.price) }
      else rows
    let asc := strHas ql "worst"
    let sorted := sortB (rankLe asc) (groupSumMM metric rows)
    (.ok ⟨n, metric, asc, sorted.take n⟩, rows2)

/-- The structured content of the comparison answer: absent a second
recognised make the source returns the literal could-not-identify message;
otherwise one entry per matched make with its total quantity and its mean
price (`none` would be the NaN mean of an empty selection, which cannot
occur since every target stems from a row). -/
inductive ComparisonResult where
  | notIdentified
  | comparison (items : List (String × Rat × Option Rat))
deriving DecidableEq, Repr

/-- The distinct make values in first-appearance order, as
`data['Make'].unique()`. -/
def uniqueMakes (rows : List Row) : List String :=
  uniqueFirst (rows.map (·.make))

/-- The rows of a make under the case-insensitive match
`data['Make'].str.lower() == target.lower()` of the comparison handler. -/
def makeRows (rows : List Row) (target : String) : List Row :=
  rows.filter fun r => lowerStr r.make == lowerStr target

/-- Mean of a list of rationals, `none` for the empty list (pandas NaN). -/
def meanOpt (l : List Rat) : Option Rat :=
  if l.isEmpty then none else some (l.sum / l.length)

/-- The comparison targets: the distinct makes whose lowered value occurs
as a substring of the lowered query, in first-appearance order. -/
def comparisonTargets (rows : List Row) (query : String) : List String :=
  (uniqueMakes rows).filter fun mk => strHas (lowerStr query) (lowerStr mk)

/-- Embedding of `_handle_comparison_query` (sales_analysis_crew.py lines
106-138): the targets are the distinct makes whose lowered value occurs in
the lowered query; fewer than two targets yield the could-not-identify
message, otherwise one line per target with summed quantity and mean
price. -/
def handleComparisonQuery (rows : List Row) (query : String) : ComparisonResult :=
  let targets := comparisonTargets rows query
  if targets.length < 2 then .notIdentified
  else
    .comparison (targets.map fun t =>
      (t, ((makeRows rows t).map (·.quantity)).sum,
       meanOpt ((makeRows rows t).map (·.price))))

/-- The observable outcome of `_handle_general_query`: either the local
growth answer (the yearly growth value that the source formats as a
percentage; `none` is a NaN growth, which the source formats all the same),
or the literal fallback message "Could not process this query". -/
inductive GeneralResponse where
  | growthAnswer (g : Option Rat)
  | processError
deriving DecidableEq, Repr

/-- Embedding of `_handle_general_query` (sales_analysis_crew.py lines
179-199).  The local branch requires "growth" in the lowered query and the
`yearly_growth` key in the summary.  The fallback branch of the source
evaluates `self.query_handler.agent.execute_task(...)`, but
`QueryHandlerAgent` (query_finder.py) defines no attribute `agent`, so the
lookup raises AttributeError, the handler catch-all fires, and the literal
string "Could not process this query" is returned; the LLM gateway is never
reached.  The embedding records that outcome as `.processError`. -/
def handleGeneralQuery (rows : List Row) (query : String) : GeneralResponse :=
  if strHas (lowerStr query) "growth" && summaryHasYearlyGrowth rows then
    .growthAnswer (calculateYearlyGrowth rows)
  else .processError

/-- Decidable equality for `Except` results, needed to evaluate the
embedding at concrete inputs. -/
instance {ε α : Type} [DecidableEq ε] [DecidableEq α] : DecidableEq (Except ε α) :=
  fun a b =>
    match a, b with
    | .error x, .error y =>
      if h : x = y then .isTrue (congrArg Except.error h)
      else .isFalse fun hh => h (Except.error.inj hh)
    | .error _, .ok _ => .isFalse fun hh => Except.noConfusion hh
    | .ok _, .error _ => .isFalse fun hh => Except.noConfusion hh
    | .ok x, .ok y =>
      if h : x = y then .isTrue (congrArg Except.ok h)
      else .isFalse fun hh => h (Except.ok.inj hh)

/-- The dispatched result of `_process_query`: which handler ran and its
structured outcome.  The projection branch only forwards a prompt to the
LLM gateway, with no locally computed content. -/
inductive QueryResponse where
  | projection
  | comparison (r : ComparisonResult)
  | ranking (r : Except String RankOutput)
  | general (r : GeneralResponse)
deriving DecidableEq, Repr

/-- Embedding of `_process_query` together with the record store after the
dispatched handler ran. -/
def processQuery (rows : List Row) (query : String) : QueryResponse × List Row :=
  match classify query with
  | .projection => (.projection, rows)
  | .comparison => (.comparison (handleComparisonQuery rows query), rows)
  | .ranking =>
    let res := handleRankingQuery rows query
    (.ranking res.1, res.2)
  | .general => (.general (handleGeneralQuery rows query), rows)

/-! ## LLM gateway (query_finder.py, execute_task lines 97-124) -/

/-- The prompt that `execute_task` builds around an instruction: the fresh
call identifier is embedded in a `[CALL_ID:...]` header ahead of the
instruction text (the indentation whitespace of the Python triple-quoted
literal is elided; the embedded identifier and the surrounding text are
kept). -/
def mkVerifiedPrompt (callId : Nat) (task : String) : String :=
  "[CALL_ID:" ++ toString callId ++ "]\n[INSTRUCTION]\n" ++ task ++
    "\n\n[REQUIREMENTS]\n1. Include CALL_ID in response\n2. Be accurate and concise"

/-- Embedding of `execute_task`.  `llmReady` models `self.llm` being set;
`backend` models one round trip of `_call_llm` (an `.error` is a raised
exception whose message the except-branch stringifies).  A response that
does not contain the decimal call identifier raises ValueError inside the
try, so the caller receives an "LLM_ERROR: ..." string; a response that
contains it is returned unchanged. -/
def executeTask (llmReady : Bool) (callId : Nat)
    (backend : String → Except String String) (task : String) : String :=
  if !llmReady then "LLM_NOT_INITIALIZED"
  else
    match backend (mkVerifiedPrompt callId task) with
    | .error e => "LLM_ERROR: " ++ e
    | .ok resp =>
      if strHas resp (toString callId) then resp
      else "LLM_ERROR: Call ID missing in response: " ++ resp

/-! ## Claim-side definitions (written from the words of the specification,
for comparison against the embedded source functions) -/

/-- The growth formula exactly as the specification words it: the mean over
the steps of `(t_i - t_prev) / t_prev`, written as an indexed sum over the
positions of the sequence. -/
def claimGrowth (ts : List Rat) : Rat :=
  (∑ i ∈ Finset.range (ts.length - 1),
      ((ts.getD (i + 1) 0 - ts.getD i 0) / ts.getD i 0)) /
    ((ts.length - 1 : Nat) : Rat)

/-- The top-N selection as the claim words it: N is 3 unless the token
immediately following the first occurrence of the literal word "top" is
numeric, in which case that number is N. -/
def claimTopN (ql : String) : Nat :=
  let ws := wordsOf ql
  match ws.findIdx? (fun w => w == "top") with
  | none => 3
  | some i =>
    match ws[i + 1]? with
    | some tok => if isDigitTok tok then digitsToNat tok.data else 3
    | none => 3

/-- The load-time content of a record: the six CSV-backed fields, without
the derived Revenue column.  Used to state which part of the store the
operations leave untouched. -/
def coreOf (r : Row) : Nat × String × String × String × Rat × Rat :=
  (r.year, r.make, r.model, r.region, r.quantity, r.price)

/-! ## Helper lemmas -/

/-- Characters built from small codepoints decode back to the same number. -/
theorem char_toNat_ofNat_small (n : Nat) (h : n ≤ 1000) : (Char.ofNat n).toNat = n := by
  unfold Char.ofNat
  split
  · simp [Char.ofNatAux, Char.toNat, UInt32.toNat, BitVec.toNat_ofNatLt]
  · rename_i hv
    exact absurd (Or.inl (by omega)) hv

/-- Lower-casing a character twice is the same as once. -/
theorem char_toLower_idem (c : Char) : Char.toLower (Char.toLower c) = Char.toLower c := by
  by_cases h : c.toNat ≥ 65 ∧ c.toNat ≤ 90
  · have h2 : (Char.ofNat (c.toNat + 32)).toNat = c.toNat + 32 :=
      char_toNat_ofNat_small _ (by omega)
    simp only [Char.toLower, if_pos h]
    rw [if_neg]
    rw [h2]
    omega
  · simp only [Char.toLower, if_neg h]

/-- Lower-casing a string is idempotent. -/
theorem lowerStr_idem (s : String) : lowerStr (lowerStr s) = lowerStr s := by
  show String.mk ((s.data.map Char.toLower).map Char.toLower) = String.mk (s.data.map Char.toLower)
  rw [List.map_map]
  exact congrArg String.mk
    (List.map_congr_left fun a _ => char_toLower_idem a)

/-- Membership in the first-occurrence deduplication is membership in the
original list. -/
theorem mem_uniqueFirst {α : Type} [DecidableEq α] (l : List α) (a : α) :
    a ∈ uniqueFirst l ↔ a ∈ l := by
  induction l with
  | nil => simp [uniqueFirst]
  | cons x xs ih =>
    by_cases hax : a = x
    · simp [uniqueFirst, hax]
    · simp [uniqueFirst, List.mem_filter, hax, ih]

/-- The first-occurrence deduplication has no duplicates. -/
theorem nodup_uniqueFirst {α : Type} [DecidableEq α] (l : List α) :
    (uniqueFirst l).Nodup := by
  induction l with
  | nil => simp [uniqueFirst]
  | cons x xs ih =>
    refine List.nodup_cons.2 ⟨?_, ih.filter _⟩
    intro hmem
    rcases List.mem_filter.1 hmem with ⟨_, hne⟩
    simp at hne

/-- A list starts with itself followed by anything. -/
theorem startsWithL_self_append (p suf : List Char) :
    startsWithL p (p ++ suf) = true := by
  induction p with
  | nil => rfl
  | cons c cs ih => simp [startsWithL, ih]

/-- A pattern that the list starts with occurs as a substring. -/
theorem hasSubstrL_of_startsWithL {p s : List Char} (h : startsWithL p s = true) :
    hasSubstrL p s = true := by
  cases s with
  | nil => simpa [hasSubstrL] using h
  | cons c cs => simp [hasSubstrL, h]

/-- A substring of the tail part survives prepending. -/
theorem hasSubstrL_append_left (pre : List Char) {p s : List Char}
    (h : hasSubstrL p s = true) : hasSubstrL p (pre ++ s) = true := by
  induction pre with
  | nil => simpa using h
  | cons c cs ih => simp [hasSubstrL, ih]

/-- The sum of a rational list as an indexed sum over positions. -/
theorem list_sum_eq_range_sum (l : List Rat) :
    l.sum = ∑ i ∈ Finset.range l.length, l.getD i 0 := by
  induction l with
  | nil => simp
  | cons a xs ih =>
    rw [List.sum_cons, List.length_cons, Finset.sum_range_succ', ih]
    simp [add_comm]

/-- A fold that at each step keeps either the accumulator or the new
element lands on a member of the extended list. -/
theorem foldl_choice_mem {α : Type} (f : α → α → α)
    (hf : ∀ a b, f a b = a ∨ f a b = b) (g : α) (gs : List α) :
    gs.foldl f g ∈ g :: gs := by
  induction gs generalizing g with
  | nil => simp
  | cons y ys ih =>
    simp only [List.foldl_cons]
    have hmem := ih (f g y)
    rcases List.mem_cons.1 hmem with h2 | h2
    · rw [h2]
      rcases hf g y with h3 | h3 <;> rw [h3] <;> simp
    · simp [h2]

/-! ## Claim theorems -/

/-- C1: for every query string, classification is pure case-insensitive
substring matching with first-match-wins priority: projection if a
projection keyword occurs in the lowered query, else comparison if a
comparison keyword occurs, else ranking if a ranking keyword occurs, else
general; in particular a query containing both "top" and "forecast"
classifies as projection, and classification of a query equals
classification of its lowered form. -/
theorem c1_classify_keyword_routing (q : String) :
    (classify q = Category.projection ↔
      (∃ kw ∈ projectionKeywords, strHas (lowerStr q) kw = true)) ∧
    (classify q = Category.comparison ↔
      ((∀ kw ∈ projectionKeywords, strHas (lowerStr q) kw = false) ∧
       ∃ kw ∈ comparisonKeywords, strHas (lowerStr q) kw = true)) ∧
    (classify q = Category.ranking ↔
      ((∀ kw ∈ projectionKeywords, strHas (lowerStr q) kw = false) ∧
       (∀ kw ∈ comparisonKeywords, strHas (lowerStr q) kw = false) ∧
       ∃ kw ∈ rankingKeywords, strHas (lowerStr q) kw = true)) ∧
    (classify q = Category.general ↔
      ((∀ kw ∈ projectionKeywords, strHas (lowerStr q) kw = false) ∧
       (∀ kw ∈ comparisonKeywords, strHas (lowerStr q) kw = false) ∧
       (∀ kw ∈ rankingKeywords, strHas (lowerStr q) kw = false))) ∧
    (strHas (lowerStr q) "top" = true → strHas (lowerStr q) "forecast" = true →
      classify q = Category.projection) ∧
    classify (lowerStr q) = classify q := by
  have hql := lowerStr_idem q
  have hforecast : "forecast" ∈ projectionKeywords := by simp [projectionKeywords]
  by_cases hP : ∃ kw ∈ projectionKeywords, strHas (lowerStr q) kw = true
  · have hcl : classify q = .projection := by
      simp [classify, List.any_eq_true, hP]
    have hcl2 : classify (lowerStr q) = .projection := by
      simp [classify, hql, List.any_eq_true, hP]
    refine ⟨⟨fun _ => hP, fun _ => hcl⟩, ?_, ?_, ?_, fun _ _ => hcl, hcl2.trans hcl.symm⟩
    · constructor
      · intro h
        rw [hcl] at h
        exact absurd h (by decide)
      · rintro ⟨hall, -⟩
        obtain ⟨kw, hkw, htrue⟩ := hP
        rw [hall kw hkw] at htrue
        exact Bool.noConfusion htrue
    · constructor
      · intro h
        rw [hcl] at h
        exact absurd h (by decide)
      · rintro ⟨hall, -, -⟩
        obtain ⟨kw, hkw, htrue⟩ := hP
        rw [hall kw hkw] at htrue
        exact Bool.noConfusion htrue
    · constructor
      · intro h
        rw [hcl] at h
        exact absurd h (by decide)
      · rintro ⟨hall, -, -⟩
        obtain ⟨kw, hkw, htrue⟩ := hP
        rw [hall kw hkw] at htrue
        exact Bool.noConfusion htrue
  · have hPf : ∀ kw ∈ projectionKeywords, strHas (lowerStr q) kw = false := by
      intro kw hkw
      cases h : strHas (lowerStr q) kw
      · rfl
      · exact absurd ⟨kw, hkw, h⟩ hP
    have htops : ∀ _ : strHas (lowerStr q) "top" = true,
        strHas (lowerStr q) "forecast" = true → classify q = Category.projection := by
      intro _ h2
      exact absurd ⟨"forecast", hforecast, h2⟩ hP
    by_cases hC : ∃ kw ∈ comparisonKeywords, strHas (lowerStr q) kw = true
    · have hcl : classify q = .comparison := by
        simp [classify, List.any_eq_true, hP, hC]
      have hcl2 : classify (lowerStr q) = .comparison := by
        simp [classify, hql, List.any_eq_true, hP, hC]
      refine ⟨?_, ⟨fun _ => ⟨hPf, hC⟩, fun _ => hcl⟩, ?_, ?_, htops, hcl2.trans hcl.symm⟩
      · constructor
        · intro h
          rw [hcl] at h
          exact absurd h (by decide)
        · intro h
          exact absurd h hP
      · constructor
        · intro h
          rw [hcl] at h
          exact absurd h (by decide)
        · rintro ⟨-, hall, -⟩
          obtain ⟨kw, hkw, htrue⟩ := hC
          rw [hall kw hkw] at htrue
          exact Bool.noConfusion htrue
      · constructor
        · intro h
          rw [hcl] at h
          exact absurd h (by decide)
        · rintro ⟨-, hall, -⟩
          obtain ⟨kw, hkw, htrue⟩ := hC
          rw [hall kw hkw] at htrue
          exact Bool.noConfusion htrue
    · have hCf : ∀ kw ∈ comparisonKeywords, strHas (lowerStr q) kw = false := by
        intro kw hkw
        cases h : strHas (lowerStr q) kw
        · rfl
        · exact absurd ⟨kw, hkw, h⟩ hC
      by_cases hR : ∃ kw ∈ rankingKeywords, strHas (lowerStr q) kw = true
      · have hcl : classify q = .ranking := by
          simp [classify, List.any_eq_true, hP, hC, hR]
        have hcl2 : classify (lowerStr q) = .ranking := by
          simp [classify, hql, List.any_eq_true, hP, hC, hR]
        refine ⟨?_, ?_, ⟨fun _ => ⟨hPf, hCf, hR⟩, fun _ => hcl⟩, ?_, htops,
          hcl2.trans hcl.symm⟩
        · constructor
          · intro h
            rw [hcl] at h
            exact absurd h (by decide)
          · intro h
            exact absurd h hP
        · constructor
          · intro h
            rw [hcl] at h
            exact absurd h (by decide)
          · rintro ⟨-, h2⟩
            exact absurd h2 hC
        · constructor
          · intro h
            rw [hcl] at h
            exact absurd h (by decide)
          · rintro ⟨-, -, hall⟩
            obtain ⟨kw, hkw, htrue⟩ := hR
            rw [hall kw hkw] at htrue
            exact Bool.noConfusion htrue
      · have hRf : ∀ kw ∈ rankingKeywords, strHas (lowerStr q) kw = false := by
          intro kw hkw
          cases h : strHas (lowerStr q) kw
          · rfl
          · exact absurd ⟨kw, hkw, h⟩ hR
        have hcl : classify q = .general := by
          simp [classify, List.any_eq_true, hP, hC, hR]
        have hcl2 : classify (lowerStr q) = .general := by
          simp [classify, hql, List.any_eq_true, hP, hC, hR]
        refine ⟨?_, ?_, ?_, ⟨fun _ => ⟨hPf, hCf, hRf⟩, fun _ => hcl⟩, htops,
          hcl2.trans hcl.symm⟩
        · constructor
          · intro h
            rw [hcl] at h
            exact absurd h (by decide)
          · intro h
            exact absurd h hP
        · constructor
          · intro h
            rw [hcl] at h
            exact absurd h (by decide)
          · rintro ⟨-, h2⟩
            exact absurd h2 hC
        · constructor
          · intro h
            rw [hcl] at h
            exact absurd h (by decide)
          · rintro ⟨-, -, h2⟩
            exact absurd h2 hR

/-- Witness for C1 at the concrete queries of the specification. -/
theorem c1_classify_keyword_routing_witness :
    classify "What is the forecast for 2025 top sellers?" = Category.projection ∧
    classify "Compare Toyota vs Honda" = Category.comparison ∧
    classify "Top 5 best models" = Category.ranking ∧
    classify "How many units total?" = Category.general := by
  refine ⟨?_, ?_, ?_, ?_⟩
  · exact (c1_classify_keyword_routing
      "What is the forecast for 2025 top sellers?").2.2.2.2.1 (by decide) (by decide)
  · exact (c1_classify_keyword_routing "Compare Toyota vs Honda").2.1.2
      ⟨by decide, "compare", by simp [comparisonKeywords], by decide⟩
  · exact (c1_classify_keyword_routing "Top 5 best models").2.2.1.2
      ⟨by decide, by decide, "top", by simp [rankingKeywords], by decide⟩
  · exact (c1_classify_keyword_routing "How many units total?").2.2.2.1.2
      ⟨by decide, by decide, by decide⟩

/-- C2 counterexample: on a single-period sequence the computed growth is
the NaN mean of an empty series (modelled `none`), not the value 0.0 that
the claim asserts; the same holds for the empty sequence. -/
theorem c2_growth_counterexample :
    growthRate [(5 : Rat)] = none ∧ growthRate [(5 : Rat)] ≠ some 0 ∧
    growthRate ([] : List Rat) = none := by
  refine ⟨rfl, ?_, rfl⟩
  intro h
  exact Option.noConfusion h

/-- C2 (amended): for a sequence of at least two positive period totals the
computed growth rate equals the mean over the steps of
`(t_i - t_prev) / t_prev`; it is positive on a strictly increasing positive
sequence and exactly zero on a constant nonzero sequence; for fewer than
two periods the result is the NaN mean (`none`), not 0.0. -/
theorem c2_growth_rate_formula (ts : List Rat) :
    (ts.length < 2 → growthRate ts = none) ∧
    (2 ≤ ts.length → (∀ t ∈ ts, 0 < t) →
      growthRate ts = some (claimGrowth ts)) ∧
    (2 ≤ ts.length → (∀ t ∈ ts, 0 < t) →
      (∀ i, i + 1 < ts.length → ts.getD i 0 < ts.getD (i + 1) 0) →
      ∃ g, growthRate ts = some g ∧ 0 < g) ∧
    (∀ c : Rat, c ≠ 0 → 2 ≤ ts.length → (∀ t ∈ ts, t = c) →
      growthRate ts = some 0) := by
  have hlen : (pctChanges ts).length = ts.length - 1 := by
    rw [pctChanges, List.length_zipWith, List.length_tail]
    exact Nat.min_eq_right (Nat.sub_le _ _)
  have hget : ∀ i (h : i < (pctChanges ts).length),
      (pctChanges ts)[i] =
        (ts.getD (i + 1) 0 - ts.getD i 0) / ts.getD i 0 := by
    intro i h
    have h1 : i < ts.length := by omega
    have h2 : i < ts.tail.length := by
      rw [List.length_tail]
      omega
    have h3 : i + 1 < ts.length := by
      rw [List.length_tail] at h2
      omega
    simp only [pctChanges, List.getElem_zipWith, List.getElem_tail]
    rw [List.getD_eq_getElem ts 0 h1, List.getD_eq_getElem ts 0 h3]
  refine ⟨?_, ?_, ?_, ?_⟩
  · intro hsmall
    have : (pctChanges ts).length = 0 := by omega
    have hnil : pctChanges ts = [] := List.length_eq_zero.1 this
    simp [growthRate, hnil]
  · intro hbig _
    have hne : (pctChanges ts).isEmpty = false := by
      rcases h : (pctChanges ts).isEmpty with _ | _
      · rfl
      · rw [List.isEmpty_iff.1 h] at hlen
        simp at hlen
        omega
    rw [growthRate]
    simp only [hne, Bool.false_eq_true, if_false]
    congr 1
    rw [claimGrowth, list_sum_eq_range_sum, hlen]
    congr 1
    apply Finset.sum_congr rfl
    intro i hi
    have hilt : i < (pctChanges ts).length := by
      rw [hlen]
      exact Finset.mem_range.1 hi
    rw [List.getD_eq_getElem _ 0 hilt, hget i hilt]
  · intro hbig hpos hmono
    have hne : pctChanges ts ≠ [] := by
      intro h
      rw [h] at hlen
      simp at hlen
      omega
    have hposall : ∀ x ∈ pctChanges ts, 0 < x := by
      intro x hx
      obtain ⟨i, hi, hxi⟩ := List.mem_iff_getElem.1 hx
      rw [hget i hi] at hxi
      have h1 : i < ts.length := by omega
      have h3 : i + 1 < ts.length := by omega
      have hpi : 0 < ts.getD i 0 := by
        rw [List.getD_eq_getElem ts 0 h1]
        exact hpos _ (List.getElem_mem h1)
      have hlt : ts.getD i 0 < ts.getD (i + 1) 0 := hmono i h3
      rw [← hxi]
      exact div_pos (by linarith) hpi
    have hsum : 0 < (pctChanges ts).sum := List.sum_pos _ hposall hne
    have hlenpos : (0 : Rat) < (pctChanges ts).length := by
      have : 0 < (pctChanges ts).length := List.length_pos.2 hne
      exact_mod_cast this
    refine ⟨(pctChanges ts).sum / (pctChanges ts).length, ?_, div_pos hsum hlenpos⟩
    rw [growthRate]
    simp only [List.isEmpty_eq_true, hne, if_false]
  · intro c hc hbig hconst
    have hzero : ∀ x ∈ pctChanges ts, x = 0 := by
      intro x hx
      obtain ⟨i, hi, hxi⟩ := List.mem_iff_getElem.1 hx
      rw [hget i hi] at hxi
      have h1 : i < ts.length := by omega
      have h3 : i + 1 < ts.length := by omega
      have e1 : ts.getD i 0 = c := by
        rw [List.getD_eq_getElem ts 0 h1]
        exact hconst _ (List.getElem_mem h1)
      have e3 : ts.getD (i + 1) 0 = c := by
        rw [List.getD_eq_getElem ts 0 h3]
        exact hconst _ (List.getElem_mem h3)
      rw [e1, e3, sub_self, zero_div] at hxi
      exact hxi.symm
    have hne : pctChanges ts ≠ [] := by
      intro h
      rw [h] at hlen
      simp at hlen
      omega
    rw [growthRate]
    simp only [List.isEmpty_eq_true, hne, if_false]
    rw [List.sum_eq_zero hzero, zero_div]

/-- Witness for C2 on concrete sequences: a strictly increasing sequence, a
constant sequence, and a single-period sequence. -/
theorem c2_growth_rate_formula_witness :
    growthRate [(1 : Rat), 2, 4] = some (claimGrowth [(1 : Rat), 2, 4]) ∧
    (∃ g, growthRate [(1 : Rat), 2, 4] = some g ∧ 0 < g) ∧
    growthRate [(3 : Rat), 3] = some 0 ∧
    growthRate [(7 : Rat)] = none := by
  refine ⟨(c2_growth_rate_formula _).2.1 (by decide) (by decide),
          (c2_growth_rate_formula _).2.2.1 (by decide) (by decide) ?_,
          (c2_growth_rate_formula _).2.2.2 3 (by decide) (by decide) (by decide),
          (c2_growth_rate_formula _).1 (by decide)⟩
  intro i hi
  have hlt : i < 2 := by
    simp only [List.length_cons, List.length_nil] at hi
    omega
  interval_cases i <;> decide


/-- Inserting an element permutes cons. -/
theorem perm_insertB {α : Type} (le : α → α → Bool) (x : α) (l : List α) :
    (insertB le x l).Perm (x :: l) := by
  induction l with
  | nil => exact List.Perm.refl _
  | cons y ys ih =>
    rw [insertB]
    by_cases h : le x y = true
    · rw [if_pos h]
    · rw [if_neg h]
      exact (ih.cons y).trans (List.Perm.swap x y ys)

/-- The insertion sort permutes its input. -/
theorem perm_sortB {α : Type} (le : α → α → Bool) (l : List α) :
    (sortB le l).Perm l := by
  induction l with
  | nil => exact List.Perm.refl _
  | cons x xs ih =>
    rw [sortB]
    exact (perm_insertB le x (sortB le xs)).trans (ih.cons x)

/-- Membership after insertion. -/
theorem mem_insertB {α : Type} (le : α → α → Bool) (x a : α) (l : List α) :
    a ∈ insertB le x l ↔ a = x ∨ a ∈ l := by
  rw [(perm_insertB le x l).mem_iff, List.mem_cons]

/-- Membership is preserved by the insertion sort. -/
theorem mem_sortB {α : Type} (le : α → α → Bool) (a : α) (l : List α) :
    a ∈ sortB le l ↔ a ∈ l :=
  (perm_sortB le l).mem_iff

/-- Inserting into a `le`-pairwise list keeps it pairwise, for a total and
transitive comparison. -/
theorem pairwise_insertB {α : Type} {le : α → α → Bool}
    (htrans : ∀ a b c, le a b = true → le b c = true → le a c = true)
    (htot : ∀ a b, le a b = false → le b a = true) (x : α) {l : List α}
    (hl : List.Pairwise (fun a b => le a b = true) l) :
    List.Pairwise (fun a b => le a b = true) (insertB le x l) := by
  induction l with
  | nil => simp [insertB]
  | cons y ys ih =>
    rw [insertB]
    rcases List.pairwise_cons.1 hl with ⟨hy, hys⟩
    by_cases h : le x y = true
    · rw [if_pos h]
      refine List.pairwise_cons.2 ⟨?_, hl⟩
      intro z hz
      rcases List.mem_cons.1 hz with heq | hz2
      · rw [heq]
        exact h
      · exact htrans x y z h (hy z hz2)
    · rw [if_neg h]
      refine List.pairwise_cons.2 ⟨?_, ih hys⟩
      intro z hz
      rcases (mem_insertB le x z ys).1 hz with heq | hz2
      · rw [heq]
        exact htot x y (Bool.eq_false_iff.2 h)
      · exact hy z hz2

/-- The insertion sort output is pairwise ordered, for a total and
transitive comparison. -/
theorem pairwise_sortB {α : Type} {le : α → α → Bool}
    (htrans : ∀ a b c, le a b = true → le b c = true → le a c = true)
    (htot : ∀ a b, le a b = false → le b a = true) (l : List α) :
    List.Pairwise (fun a b => le a b = true) (sortB le l) := by
  induction l with
  | nil => simp [sortB]
  | cons x xs ih =>
    rw [sortB]
    exact pairwise_insertB htrans htot x ih

/-- Summing a column over the rows kept by an equality filter is the same
as summing the if-then-else indicator over all rows. -/
theorem filter_sum_eq_indicator_sum (rows : List Row) (y : Nat) :
    ((rows.filter fun r => decide (r.year = y)).map (·.quantity)).sum
      = (rows.map fun r => if r.year = y then r.quantity else 0).sum := by
  induction rows with
  | nil => rfl
  | cons r rs ih =>
    by_cases h : r.year = y <;>
      simp [List.filter_cons, h, ih, List.sum_cons]

/-- C6: the keys of the per-year totals are exactly the distinct years of
the input rows (each exactly once), and the value at each year is the sum
of the quantities of the rows of that year; these totals are the
`total_by_year` field of the trends result. -/
theorem c6_total_by_year_keys_and_sums (rows : List Row) :
    (∀ y : Nat, y ∈ (totalByYear rows).map Prod.fst ↔ ∃ r ∈ rows, r.year = y) ∧
    ((totalByYear rows).map Prod.fst).Nodup ∧
    (∀ yv ∈ totalByYear rows,
      yv.2 = (rows.map fun r => if r.year = yv.1 then r.quantity else 0).sum) ∧
    (getYearlyTrends rows).1.totalByYear = totalByYear rows := by
  have hkeys : (totalByYear rows).map Prod.fst = yearKeys rows := by
    rw [totalByYear, List.map_map]
    exact List.map_id _
  refine ⟨?_, ?_, ?_, rfl⟩
  · intro y
    rw [hkeys, yearKeys, mem_sortB, mem_uniqueFirst, List.mem_map]
  · rw [hkeys, yearKeys]
    exact (perm_sortB _ _).symm.nodup (nodup_uniqueFirst _)
  · intro yv hyv
    rcases List.mem_map.1 hyv with ⟨y, _, hpair⟩
    rw [← hpair]
    exact filter_sum_eq_indicator_sum rows y

/-- Witness for C6 at a concrete record set with two years. -/
theorem c6_total_by_year_keys_and_sums_witness :
    2020 ∈ (totalByYear [⟨2021, "A", "X", "N", 4, 1, none⟩,
        ⟨2020, "A", "X", "N", 3, 1, none⟩,
        ⟨2020, "B", "Y", "S", 2, 1, none⟩]).map Prod.fst ∧
    totalByYear [⟨2021, "A", "X", "N", 4, 1, none⟩,
        ⟨2020, "A", "X", "N", 3, 1, none⟩,
        ⟨2020, "B", "Y", "S", 2, 1, none⟩] = [(2020, 5), (2021, 4)] := by
  constructor
  · exact ((c6_total_by_year_keys_and_sums _).1 2020).2
      ⟨⟨2020, "A", "X", "N", 3, 1, none⟩, by simp, rfl⟩
  · norm_num [totalByYear, yearKeys, uniqueFirst, sortB, insertB,
      List.filter_cons]

/-- C7: with at least one row whose make, model and quantity are all
present, the top make/model is the space-joined name of a (make, model)
pair of some such row; with no rows, or none valid, the result is one of
the no-data sentinel strings, and no failure occurs (the function is
total). -/
theorem c7_top_make_model_present_or_sentinel (rows : List RawRow) :
    ((∃ r ∈ rows, validRow r = true) →
      ∃ mk mdl, getTopMakeModel rows = mk ++ " " ++ mdl ∧
        ∃ r ∈ rows, r.make = some mk ∧ r.model = some mdl ∧
          r.quantity.isSome = true) ∧
    ((∀ r ∈ rows, validRow r = false) →
      getTopMakeModel rows = "No data available" ∨
      getTopMakeModel rows = "No valid data available") := by
  constructor
  · rintro ⟨r0, hr0, hv⟩
    have hne : rows.isEmpty = false := by
      cases rows with
      | nil => cases hr0
      | cons a l => rfl
    have hr0c : r0 ∈ rows.filter validRow := List.mem_filter.2 ⟨hr0, hv⟩
    have hcne : (rows.filter validRow).isEmpty = false := by
      cases hc : rows.filter validRow with
      | nil =>
        rw [hc] at hr0c
        cases hr0c
      | cons a l => rfl
    have hkmem : rawKey r0 ∈
        sortB pairLeB (uniqueFirst ((rows.filter validRow).map rawKey)) :=
      (mem_sortB _ _ _).2 ((mem_uniqueFirst _ _).2 (List.mem_map_of_mem _ hr0c))
    obtain ⟨k0, ks, hg⟩ : ∃ k0 ks,
        sortB pairLeB (uniqueFirst ((rows.filter validRow).map rawKey))
          = k0 :: ks := by
      cases hk : sortB pairLeB (uniqueFirst ((rows.filter validRow).map rawKey)) with
      | nil =>
        rw [hk] at hkmem
        cases hkmem
      | cons a l => exact ⟨a, l, rfl⟩
    set f : String × String → (String × String) × Rat := fun k =>
      (k, (((rows.filter validRow).filter fun r => decide (rawKey r = k)).map
            (fun r => r.quantity.getD 0)).sum) with hf
    set top : (String × String) × Rat :=
      (ks.map f).foldl (fun best y => if best.2 < y.2 then y else best) (f k0)
      with htop
    have htopmem : top ∈ f k0 :: ks.map f := by
      rw [htop]
      exact foldl_choice_mem _ (by
        intro a b
        by_cases h : a.2 < b.2
        · rw [if_pos h]
          exact Or.inr rfl
        · rw [if_neg h]
          exact Or.inl rfl) _ _
    have htopmem2 : top ∈ (k0 :: ks).map f := by
      rw [List.map_cons]
      exact htopmem
    obtain ⟨k, hkmem2, hkf⟩ := List.mem_map.1 htopmem2
    have hkeys2 : k ∈ (rows.filter validRow).map rawKey := by
      have := hg ▸ hkmem2
      exact (mem_uniqueFirst _ _).1 ((mem_sortB _ _ _).1 this)
    obtain ⟨r, hrc, hrk⟩ := List.mem_map.1 hkeys2
    rcases List.mem_filter.1 hrc with ⟨hrrows, hrvalid⟩
    rw [validRow, Bool.and_eq_true, Bool.and_eq_true] at hrvalid
    obtain ⟨⟨hmk, hmd⟩, hq⟩ := hrvalid
    obtain ⟨mk, hmk2⟩ := Option.isSome_iff_exists.1 hmk
    obtain ⟨mdl, hmd2⟩ := Option.isSome_iff_exists.1 hmd
    have hk1 : k.1 = mk := by
      rw [← hrk, rawKey, hmk2]
      rfl
    have hk2 : k.2 = mdl := by
      rw [← hrk, rawKey, hmd2]
      rfl
    have htopk : top.1 = k := by
      rw [← hkf]
    refine ⟨mk, mdl, ?_, r, hrrows, hmk2, hmd2, hq⟩
    rw [getTopMakeModel]
    simp only [hne, hcne, Bool.false_eq_true, if_false]
    rw [hg, List.map_cons]
    show ((ks.map f).foldl (fun best y => if best.2 < y.2 then y else best)
      (f k0)).1.1 ++ " " ++ _ = _
    rw [← htop, htopk, hk1, hk2]
  · intro hall
    by_cases hnil : rows = []
    · rw [hnil]
      exact Or.inl rfl
    · right
      have hne : rows.isEmpty = false := List.isEmpty_eq_false.2 hnil
      have hcnil : rows.filter validRow = [] :=
        List.filter_eq_nil_iff.2 (by
          intro x hx
          rw [hall x hx]
          exact Bool.false_ne_true)
      rw [getTopMakeModel]
      simp only [hne, hcnil, Bool.false_eq_true, if_false, List.isEmpty_nil,
        if_true]

/-- Witness for C7 at a concrete record set: one valid row among invalid
ones, and an all-invalid set. -/
theorem c7_top_make_model_present_or_sentinel_witness :
    (∃ mk mdl, getTopMakeModel [⟨2020, none, some "X", none, some 5, none⟩,
        ⟨2020, some "B", some "Y", none, some 9, none⟩] = mk ++ " " ++ mdl ∧
      ∃ r ∈ [⟨2020, none, some "X", none, some 5, none⟩,
        (⟨2020, some "B", some "Y", none, some 9, none⟩ : RawRow)],
        r.make = some mk ∧ r.model = some mdl ∧ r.quantity.isSome = true) ∧
    (getTopMakeModel [⟨2020, none, some "X", none, some 5, none⟩]
        = "No data available" ∨
     getTopMakeModel [⟨2020, none, some "X", none, some 5, none⟩]
        = "No valid data available") := by
  constructor
  · exact (c7_top_make_model_present_or_sentinel _).1
      ⟨⟨2020, some "B", some "Y", none, some 9, none⟩, by simp, rfl⟩
  · exact (c7_top_make_model_present_or_sentinel _).2 (by
      intro r hr
      simp only [List.mem_singleton] at hr
      rw [hr]
      rfl)

/-- C9: the outgoing prompt of `execute_task` embeds the decimal call
identifier; a backend response lacking that identifier makes the call
return an "LLM_ERROR: ..." string (no exception escapes, the function is
total); a response containing the identifier is returned unchanged; a
raised backend error is likewise surfaced as an "LLM_ERROR: ..." string. -/
theorem c9_execute_task_verifies_call_id (callId : Nat) (task : String)
    (backend : String → Except String String) :
    strHas (mkVerifiedPrompt callId task) (toString callId) = true ∧
    (∀ resp, backend (mkVerifiedPrompt callId task) = .ok resp →
      strHas resp (toString callId) = false →
      executeTask true callId backend task =
        "LLM_ERROR: Call ID missing in response: " ++ resp) ∧
    (∀ resp, backend (mkVerifiedPrompt callId task) = .ok resp →
      strHas resp (toString callId) = true →
      executeTask true callId backend task = resp) ∧
    (∀ e, backend (mkVerifiedPrompt callId task) = .error e →
      executeTask true callId backend task = "LLM_ERROR: " ++ e) := by
  refine ⟨?_, ?_, ?_, ?_⟩
  · rw [strHas, mkVerifiedPrompt]
    simp only [String.data_append, List.append_assoc]
    apply hasSubstrL_append_left
    apply hasSubstrL_of_startsWithL
    exact startsWithL_self_append _ _
  · intro resp hb hs
    rw [executeTask]
    simp only [Bool.not_true, Bool.false_eq_true, if_false, hb, hs]
  · intro resp hb hs
    rw [executeTask]
    simp only [Bool.not_true, Bool.false_eq_true, if_false, hb, hs, if_true]
  · intro e hb
    rw [executeTask]
    simp only [Bool.not_true, Bool.false_eq_true, if_false, hb]

/-- Witness for C9 at a concrete call: a backend that omits the identifier
is surfaced as an error string, a backend that echoes it is returned
unchanged, and the prompt itself carries the identifier. -/
theorem c9_execute_task_verifies_call_id_witness :
    executeTask true 123456 (fun _ => .ok "no id here") "hi"
      = "LLM_ERROR: Call ID missing in response: no id here" ∧
    executeTask true 123456 (fun _ => .ok "ok 123456") "hi" = "ok 123456" ∧
    strHas (mkVerifiedPrompt 123456 "hi") (toString 123456) = true := by
  refine ⟨?_, ?_, (c9_execute_task_verifies_call_id 123456 "hi"
    (fun _ => .ok "no id here")).1⟩
  · exact (c9_execute_task_verifies_call_id 123456 "hi" _).2.1
      "no id here" rfl (by decide)
  · exact (c9_execute_task_verifies_call_id 123456 "hi" _).2.2.1
      "ok 123456" rfl (by decide)

/-- C10 counterexample: the query "stop forecasting" contains "top" as a
substring but not as a whitespace-delimited token, yet it is routed to the
projection handler (the projection keyword check runs first), not to the
ranking handler as the claim asserts for every such query. -/
theorem c10_counterexample_routed_to_projection :
    strHas (lowerStr "stop forecasting") "top" = true ∧
    "top" ∉ wordsOf (lowerStr "stop forecasting") ∧
    processQuery [] "stop forecasting" = (.projection, []) := by
  refine ⟨by decide, by decide, by decide⟩

/-- C10 (amended): for every query that contains "top" as a substring but
not as a standalone whitespace-delimited token and that the router
classifies as ranking, the token lookup raises, the exception is caught,
and the handler answers with the could-not-generate-rankings error message
(exception text of the Python list lookup, quotes elided) instead of a
ranking with the default N = 3. -/
theorem c10_ranking_top_substring_not_token_error (rows : List Row) (q : String)
    (h1 : strHas (lowerStr q) "top" = true)
    (h2 : "top" ∉ wordsOf (lowerStr q))
    (h3 : classify q = Category.ranking) :
    processQuery rows q =
      (.ranking (.error "Could not generate rankings: top is not in list"),
       rows) := by
  have hfind : (wordsOf (lowerStr q)).findIdx? (fun w => w == "top") = none :=
    List.findIdx?_eq_none_iff.2 fun x hx =>
      beq_eq_false_iff_ne.2 fun heq => h2 (heq ▸ hx)
  have hparse : parseTopN (lowerStr q) = .error "top is not in list" := by
    rw [parseTopN, if_pos h1]
    simp only [hfind]
  simp only [processQuery, h3]
  simp only [handleRankingQuery, hparse]
  rfl

/-- Witness for C10 at the concrete query of the claim, over an empty
record set. -/
theorem c10_ranking_top_substring_not_token_error_witness :
    processQuery [] "stop selling models" =
      (.ranking (.error "Could not generate rankings: top is not in list"),
       []) :=
  c10_ranking_top_substring_not_token_error [] "stop selling models"
    (by decide) (by decide) (by decide)

/-- C4: the comparison handler selects exactly the distinct make values
that occur case-insensitively as substrings of the query; with fewer than
two matches it answers could-not-identify; otherwise it answers one entry
per matched make, in order, carrying that make total summed quantity and
mean price over the rows matching that make (case-insensitively, as the
source filters). -/
theorem c4_comparison_handler_targets_and_lines (rows : List Row) (query : String) :
    (∀ mk, mk ∈ comparisonTargets rows query ↔
      mk ∈ uniqueMakes rows ∧ strHas (lowerStr query) (lowerStr mk) = true) ∧
    (∀ mk, mk ∈ uniqueMakes rows ↔ ∃ r ∈ rows, r.make = mk) ∧
    (uniqueMakes rows).Nodup ∧
    ((comparisonTargets rows query).length < 2 →
      handleComparisonQuery rows query = .notIdentified) ∧
    (2 ≤ (comparisonTargets rows query).length →
      ∃ items, handleComparisonQuery rows query = .comparison items ∧
        items.map Prod.fst = comparisonTargets rows query ∧
        ∀ x ∈ items,
          x.2.1 = ((makeRows rows x.1).map (·.quantity)).sum ∧
          x.2.2 = some (((makeRows rows x.1).map (·.price)).sum /
            ((makeRows rows x.1).length : Rat))) := by
  refine ⟨?_, ?_, ?_, ?_, ?_⟩
  · intro mk
    rw [comparisonTargets, List.mem_filter]
  · intro mk
    rw [uniqueMakes, mem_uniqueFirst, List.mem_map]
  · exact nodup_uniqueFirst _
  · intro hlt
    rw [handleComparisonQuery]
    simp only [hlt, if_pos]
  · intro hge
    have hnlt : ¬ (comparisonTargets rows query).length < 2 := by omega
    refine ⟨(comparisonTargets rows query).map fun t =>
      (t, ((makeRows rows t).map (·.quantity)).sum,
       meanOpt ((makeRows rows t).map (·.price))), ?_, ?_, ?_⟩
    · rw [handleComparisonQuery]
      simp only [hnlt, if_neg, if_false]
    · rw [List.map_map]
      exact List.map_id _
    · intro x hx
      rcases List.mem_map.1 hx with ⟨t, htmem, hft⟩
      have htmem2 : t ∈ (uniqueMakes rows).filter fun mk =>
          strHas (lowerStr query) (lowerStr mk) := htmem
      have htu : t ∈ uniqueMakes rows := (List.mem_filter.1 htmem2).1
      obtain ⟨r, hr, hrmk⟩ := List.mem_map.1 ((mem_uniqueFirst _ _).1 htu)
      have hrm : r ∈ makeRows rows t := by
        rw [makeRows, List.mem_filter]
        refine ⟨hr, ?_⟩
        rw [hrmk]
        exact beq_self_eq_true _
      have hne : ((makeRows rows t).map (·.price)).isEmpty = false := by
        cases hmr : makeRows rows t with
        | nil =>
          rw [hmr] at hrm
          cases hrm
        | cons a l => rfl
      rw [← hft]
      refine ⟨rfl, ?_⟩
      show meanOpt ((makeRows rows t).map (·.price)) = _
      rw [meanOpt]
      simp only [hne, Bool.false_eq_true, if_false, List.length_map]
  

/-- Witness for C4: the two-make dataset of the specification with the
query "Toyota vs Honda" yields one entry per make with total quantity and
mean price, and a query naming a single make yields the
could-not-identify answer. -/
theorem c4_comparison_handler_targets_and_lines_witness :
    handleComparisonQuery
        [⟨2020, "Toyota", "Camry", "N", 3, 10, none⟩,
         ⟨2020, "Honda", "Civic", "N", 5, 20, none⟩] "Toyota vs Honda"
      = .comparison [("Toyota", 3, some 10), ("Honda", 5, some 20)] ∧
    handleComparisonQuery
        [⟨2020, "Toyota", "Camry", "N", 3, 10, none⟩,
         ⟨2020, "Honda", "Civic", "N", 5, 20, none⟩] "Toyota only"
      = .notIdentified := by
  constructor
  · obtain ⟨items, heq, hfst, hvals⟩ :=
      (c4_comparison_handler_targets_and_lines
        [⟨2020, "Toyota", "Camry", "N", 3, 10, none⟩,
         ⟨2020, "Honda", "Civic", "N", 5, 20, none⟩]
        "Toyota vs Honda").2.2.2.2 (by decide)
    rw [heq]
    have ht : comparisonTargets
        [⟨2020, "Toyota", "Camry", "N", 3, 10, none⟩,
         ⟨2020, "Honda", "Civic", "N", 5, 20, none⟩] "Toyota vs Honda"
        = ["Toyota", "Honda"] := by decide
    have hm1 : makeRows
        [⟨2020, "Toyota", "Camry", "N", 3, 10, none⟩,
         ⟨2020, "Honda", "Civic", "N", 5, 20, none⟩] "Toyota"
        = [⟨2020, "Toyota", "Camry", "N", 3, 10, none⟩] := by decide
    have hm2 : makeRows
        [⟨2020, "Toyota", "Camry", "N", 3, 10, none⟩,
         ⟨2020, "Honda", "Civic", "N", 5, 20, none⟩] "Honda"
        = [⟨2020, "Honda", "Civic", "N", 5, 20, none⟩] := by decide
    rw [ht] at hfst
    match items, hfst with
    | [x1, x2], hfst2 =>
      obtain ⟨hq1, hp1⟩ := hvals x1 (by simp)
      obtain ⟨hq2, hp2⟩ := hvals x2 (by simp)
      have hx1 : x1.1 = "Toyota" := by
        have := congrArg (fun l => l.getD 0 "") hfst2
        simpa using this
      have hx2 : x2.1 = "Honda" := by
        have := congrArg (fun l => l.getD 1 "") hfst2
        simpa using this
      rw [hx1, hm1] at hq1 hp1
      rw [hx2, hm2] at hq2 hp2
      have e1 : x1 = ("Toyota", 3, some 10) := by
        have : x1 = (x1.1, x1.2.1, x1.2.2) := rfl
        rw [this, hx1, hq1, hp1]
        norm_num
      have e2 : x2 = ("Honda", 5, some 20) := by
        have : x2 = (x2.1, x2.2.1, x2.2.2) := rfl
        rw [this, hx2, hq2, hp2]
        norm_num
      rw [e1, e2]
  · exact (c4_comparison_handler_targets_and_lines
      [⟨2020, "Toyota", "Camry", "N", 3, 10, none⟩,
       ⟨2020, "Honda", "Civic", "N", 5, 20, none⟩]
      "Toyota only").2.2.2.1 (by decide)

/-- C5 (code bug): the general handler answers locally for a growth query
over a nonempty record set, but any other general query hits the broken
fallback line `self.query_handler.agent.execute_task(...)` of the source
(`QueryHandlerAgent` has no attribute `agent`), so the handler returns the
literal "Could not process this query" instead of a Gateway response. -/
theorem c5_general_handler_fallback_broken :
    handleGeneralQuery [⟨2023, "Toyota", "Camry", "North", 3, 25000, none⟩]
      "How many units total?" = .processError ∧
    strHas (lowerStr "How many units total?") "growth" = false ∧
    summaryHasYearlyGrowth
      [⟨2023, "Toyota", "Camry", "North", 3, 25000, none⟩] = true ∧
    handleGeneralQuery [⟨2023, "Toyota", "Camry", "North", 3, 25000, none⟩]
      "What is the growth rate?"
      = .growthAnswer (calculateYearlyGrowth
          [⟨2023, "Toyota", "Camry", "North", 3, 25000, none⟩]) := by
  refine ⟨by decide, by decide, rfl, ?_⟩
  rw [handleGeneralQuery]
  rw [if_pos (by decide)]

/-- Every word produced by the splitting helper occurs as a substring of
the accumulator (reversed) followed by the remaining input. -/
theorem wordsAux_mem_substr (cs : List Char) : ∀ acc w : List Char,
    w ∈ wordsAux acc cs → hasSubstrL w (acc.reverse ++ cs) = true := by
  induction cs with
  | nil =>
    intro acc w hw
    rw [wordsAux] at hw
    by_cases h : acc.isEmpty = true
    · rw [if_pos h] at hw
      cases hw
    · rw [if_neg h] at hw
      rcases List.mem_singleton.1 hw with rfl
      rw [List.append_nil]
      apply hasSubstrL_of_startsWithL
      have := startsWithL_self_append acc.reverse []
      simpa using this
  | cons c cs2 ih =>
    intro acc w hw
    rw [wordsAux] at hw
    by_cases hws : c.isWhitespace = true
    · rw [if_pos hws] at hw
      by_cases hacc : acc.isEmpty = true
      · rw [if_pos hacc] at hw
        have hsub := ih [] w hw
        simp only [List.reverse_nil, List.nil_append] at hsub
        have haccnil : acc = [] := List.isEmpty_iff.1 hacc
        rw [haccnil, List.reverse_nil, List.nil_append, hasSubstrL, hsub]
        simp
      · rw [if_neg hacc] at hw
        rcases List.mem_cons.1 hw with heq | hmem
        · rw [heq]
          exact hasSubstrL_of_startsWithL (startsWithL_self_append _ _)
        · have hsub := ih [] w hmem
          simp only [List.reverse_nil, List.nil_append] at hsub
          have h2 : hasSubstrL w (c :: cs2) = true := by
            rw [hasSubstrL, hsub]
            simp
          exact hasSubstrL_append_left _ h2
    · rw [if_neg hws] at hw
      have hsub := ih (c :: acc) w hw
      rw [List.reverse_cons, List.append_assoc] at hsub
      simpa using hsub

/-- Every word of the whitespace split occurs as a substring of the
string. -/
theorem mem_wordsOf_substr (s w : String) (hw : w ∈ wordsOf s) :
    strHas s w = true := by
  rw [wordsOf] at hw
  rcases List.mem_map.1 hw with ⟨l, hl, hlw⟩
  have hsub := wordsAux_mem_substr s.data [] l hl
  simp only [List.reverse_nil, List.nil_append] at hsub
  rw [strHas, ← hlw]
  exact hsub

/-- The ranking comparison is transitive in either direction. -/
theorem rankLe_trans (asc : Bool) (a b c : (String × String) × Rat)
    (h1 : rankLe asc a b = true) (h2 : rankLe asc b c = true) :
    rankLe asc a c = true := by
  cases asc <;>
    simp only [rankLe, if_true, if_false, Bool.false_eq_true,
      decide_eq_true_eq] at h1 h2 ⊢
  · exact le_trans h2 h1
  · exact le_trans h1 h2

/-- The ranking comparison is total in either direction. -/
theorem rankLe_total (asc : Bool) (a b : (String × String) × Rat)
    (h : rankLe asc a b = false) : rankLe asc b a = true := by
  cases asc <;>
    simp only [rankLe, if_true, if_false, Bool.false_eq_true,
      decide_eq_true_eq, decide_eq_false_iff_not] at h ⊢
  · exact le_of_not_le h
  · exact le_of_not_le h

/-- C3: on the no-raise path (the word "top", when present as a substring
of the lowered query, is an exact token), the ranking handler succeeds
with N parsed as the claim states (3 unless a numeric token follows
"top"), the metric chosen by the expensive/revenue keywords with quantity
as default, ascending order exactly for "worst" queries; the answer lists
at most N groups, each a (make, model) pair of the record set paired with
the summed metric over its rows, ordered by the chosen direction; on the
specification dataset {(A,X):100,(B,Y):50,(C,Z):200} the query "top 2"
returns [(C,Z):200,(A,X):100]. -/
theorem c3_ranking_handler_selection_and_order (rows : List Row) (query : String)
    (htok : strHas (lowerStr query) "top" = true →
      "top" ∈ wordsOf (lowerStr query)) :
    (∃ out, (handleRankingQuery rows query).1 = .ok out ∧
      out.n = claimTopN (lowerStr query) ∧
      (out.metric = .price ↔ strHas (lowerStr query) "expensive" = true) ∧
      (out.metric = .revenue ↔ strHas (lowerStr query) "expensive" = false ∧
        strHas (lowerStr query) "revenue" = true) ∧
      (out.metric = .quantity ↔ strHas (lowerStr query) "expensive" = false ∧
        strHas (lowerStr query) "revenue" = false) ∧
      out.ascending = strHas (lowerStr query) "worst" ∧
      out.items.length = min out.n (mmKeys rows).length ∧
      (∀ kv ∈ out.items,
        (∃ r ∈ rows, (r.make, r.model) = kv.1) ∧
        kv.2 = ((rows.filter fun r =>
          decide (r.make = kv.1.1 ∧ r.model = kv.1.2)).map
            (metricValue out.metric)).sum) ∧
      List.Pairwise (fun a b => rankLe out.ascending a b = true) out.items) ∧
    (handleRankingQuery
        [⟨2020, "A", "X", "N", 100, 1, none⟩, ⟨2020, "B", "Y", "N", 50, 1, none⟩,
         ⟨2020, "C", "Z", "N", 200, 1, none⟩] "top 2").1
      = .ok ⟨2, .quantity, false, [(("C", "Z"), 200), (("A", "X"), 100)]⟩ := by
  constructor
  · have hparse : ∃ n, parseTopN (lowerStr query) = Except.ok n ∧
        n = claimTopN (lowerStr query) := by
      by_cases htop : strHas (lowerStr query) "top" = true
      · have hmem := htok htop
        cases hfi : (wordsOf (lowerStr query)).findIdx? (fun w => w == "top") with
        | none =>
          exfalso
          have hx := List.findIdx?_eq_none_iff.1 hfi "top" hmem
          simp at hx
        | some i =>
          rw [parseTopN, if_pos htop, claimTopN]
          simp only [hfi]
          cases hg : (wordsOf (lowerStr query))[i + 1]? with
          | none =>
            simp only [hg]
            exact ⟨3, rfl, rfl⟩
          | some tok =>
            simp only [hg]
            by_cases hd : isDigitTok tok = true
            · rw [if_pos hd, if_pos hd]
              exact ⟨digitsToNat tok.data, rfl, rfl⟩
            · rw [if_neg hd, if_neg hd]
              exact ⟨3, rfl, rfl⟩
      · have hsub : strHas (lowerStr query) "top" = false := by
          cases h : strHas (lowerStr query) "top"
          · rfl
          · exact absurd h htop
        have hfi : (wordsOf (lowerStr query)).findIdx? (fun w => w == "top")
            = none := by
          apply List.findIdx?_eq_none_iff.2
          intro x hx
          apply beq_eq_false_iff_ne.2
          intro heq
          have hmem : "top" ∈ wordsOf (lowerStr query) := heq ▸ hx
          have hst := mem_wordsOf_substr _ _ hmem
          rw [hsub] at hst
          exact Bool.noConfusion hst
        refine ⟨3, ?_, ?_⟩
        · rw [parseTopN, if_neg htop]
        · rw [claimTopN]
          simp only [hfi]
    obtain ⟨n, hpn, hneq⟩ := hparse
    refine ⟨⟨n,
      (if strHas (lowerStr query) "expensive" then Metric.price
       else if strHas (lowerStr query) "revenue" then Metric.revenue
       else Metric.quantity),
      strHas (lowerStr query) "worst",
      (sortB (rankLe (strHas (lowerStr query) "worst"))
        (groupSumMM
          (if strHas (lowerStr query) "expensive" then Metric.price
           else if strHas (lowerStr query) "revenue" then Metric.revenue
           else Metric.quantity) rows)).take n⟩,
      ?_, hneq, ?_, ?_, ?_, rfl, ?_, ?_, ?_⟩
    · rw [handleRankingQuery]
      simp only [hpn]
    · by_cases he : strHas (lowerStr query) "expensive" = true
      · simp [he]
      · by_cases hrv : strHas (lowerStr query) "revenue" = true <;> simp [he, hrv]
    · by_cases he : strHas (lowerStr query) "expensive" = true
      · simp [he]
      · by_cases hrv : strHas (lowerStr query) "revenue" = true <;> simp [he, hrv]
    · by_cases he : strHas (lowerStr query) "expensive" = true
      · simp [he]
      · by_cases hrv : strHas (lowerStr query) "revenue" = true <;> simp [he, hrv]
    · rw [List.length_take]
      congr 1
      rw [(perm_sortB _ _).length_eq, groupSumMM, List.length_map,
        (perm_sortB _ _).length_eq]
    · intro kv hkv
      have hkv2 := List.take_subset _ _ hkv
      have hkv3 := (mem_sortB _ _ _).1 hkv2
      rw [groupSumMM] at hkv3
      rcases List.mem_map.1 hkv3 with ⟨k, hk, hkf⟩
      have hk2 := (mem_sortB _ _ _).1 hk
      rw [mmKeys] at hk2
      rcases List.mem_map.1 ((mem_uniqueFirst _ _).1 hk2) with ⟨r, hr, hrk⟩
      constructor
      · refine ⟨r, hr, ?_⟩
        rw [hrk, ← hkf]
      · rw [← hkf]
    · exact List.Pairwise.sublist (List.take_sublist _ _)
        (pairwise_sortB (rankLe_trans _) (rankLe_total _) _)
  · have hp2 : parseTopN (lowerStr "top 2") = Except.ok 2 := by decide
    have hk : sortB pairLeB (mmKeys
        [⟨2020, "A", "X", "N", 100, 1, none⟩, ⟨2020, "B", "Y", "N", 50, 1, none⟩,
         ⟨2020, "C", "Z", "N", 200, 1, none⟩])
        = [("A", "X"), ("B", "Y"), ("C", "Z")] := by decide
    have hf1 : List.filter (fun r : Row =>
        decide (r.make = "A" ∧ r.model = "X"))
        [⟨2020, "A", "X", "N", 100, 1, none⟩, ⟨2020, "B", "Y", "N", 50, 1, none⟩,
         ⟨2020, "C", "Z", "N", 200, 1, none⟩]
        = [⟨2020, "A", "X", "N", 100, 1, none⟩] := by decide
    have hf2 : List.filter (fun r : Row =>
        decide (r.make = "B" ∧ r.model = "Y"))
        [⟨2020, "A", "X", "N", 100, 1, none⟩, ⟨2020, "B", "Y", "N", 50, 1, none⟩,
         ⟨2020, "C", "Z", "N", 200, 1, none⟩]
        = [⟨2020, "B", "Y", "N", 50, 1, none⟩] := by decide
    have hf3 : List.filter (fun r : Row =>
        decide (r.make = "C" ∧ r.model = "Z"))
        [⟨2020, "A", "X", "N", 100, 1, none⟩, ⟨2020, "B", "Y", "N", 50, 1, none⟩,
         ⟨2020, "C", "Z", "N", 200, 1, none⟩]
        = [⟨2020, "C", "Z", "N", 200, 1, none⟩] := by decide
    have hgs : groupSumMM .quantity
        [⟨2020, "A", "X", "N", 100, 1, none⟩, ⟨2020, "B", "Y", "N", 50, 1, none⟩,
         ⟨2020, "C", "Z", "N", 200, 1, none⟩]
        = [(("A", "X"), 100), (("B", "Y"), 50), (("C", "Z"), 200)] := by
      rw [groupSumMM, hk]
      simp only [List.map_cons, List.map_nil, hf1, hf2, hf3, metricValue]
      norm_num
    have hsorted : sortB (rankLe false)
        [(("A", "X"), 100), (("B", "Y"), 50), (("C", "Z"), 200)]
        = [(("C", "Z"), 200), (("A", "X"), 100), (("B", "Y"), 50)] := by
      norm_num [sortB, insertB, rankLe]
    have he : strHas (lowerStr "top 2") "expensive" = false := by decide
    have hrv : strHas (lowerStr "top 2") "revenue" = false := by decide
    have hw : strHas (lowerStr "top 2") "worst" = false := by decide
    rw [handleRankingQuery]
    simp only [hp2, he, hrv, hw, Bool.false_eq_true, if_false, hgs, hsorted]
    rfl

/-- Witness for C3: the handler succeeds on a concrete worst-revenue query
(token rule satisfied vacuously), and the specification dataset example is
instantiated. -/
theorem c3_ranking_handler_selection_and_order_witness :
    (∃ out, (handleRankingQuery [⟨2020, "A", "X", "N", 2, 10, none⟩]
        "worst 3 revenue makers").1 = .ok out ∧
      out.n = claimTopN (lowerStr "worst 3 revenue makers") ∧
      out.ascending = true) ∧
    (handleRankingQuery
        [⟨2020, "A", "X", "N", 100, 1, none⟩, ⟨2020, "B", "Y", "N", 50, 1, none⟩,
         ⟨2020, "C", "Z", "N", 200, 1, none⟩] "top 2").1
      = .ok ⟨2, .quantity, false, [(("C", "Z"), 200), (("A", "X"), 100)]⟩ := by
  constructor
  · obtain ⟨out, h1, h2, _, _, _, h6, _⟩ :=
      (c3_ranking_handler_selection_and_order
        [⟨2020, "A", "X", "N", 2, 10, none⟩]
        "worst 3 revenue makers" (by decide)).1
    refine ⟨out, h1, h2, ?_⟩
    rw [h6]
    decide
  · exact (c3_ranking_handler_selection_and_order [] "top 2" (by decide)).2

/-- C8 counterexample: a ranking query that selects the revenue metric
assigns the derived Revenue column in place, so the record store after the
call differs from the store at load time. -/
theorem c8_counterexample_revenue_query_mutates_store :
    (handleRankingQuery [⟨2020, "A", "X", "N", 2, 10, none⟩] "worst revenue").2
      = [⟨2020, "A", "X", "N", 2, 10, some 20⟩] ∧
    (handleRankingQuery [⟨2020, "A", "X", "N", 2, 10, none⟩] "worst revenue").2
      ≠ [⟨2020, "A", "X", "N", 2, 10, none⟩] := by
  have hp : parseTopN (lowerStr "worst revenue") = Except.ok 3 := by decide
  have he : strHas (lowerStr "worst revenue") "expensive" = false := by decide
  have hrv : strHas (lowerStr "worst revenue") "revenue" = true := by decide
  have h2 : (handleRankingQuery [⟨2020, "A", "X", "N", 2, 10, none⟩]
      "worst revenue").2 = [⟨2020, "A", "X", "N", 2, 10, some 20⟩] := by
    rw [handleRankingQuery]
    simp only [hp, he, hrv, Bool.not_false, Bool.true_and, if_true,
      List.map_cons, List.map_nil]
    norm_num
  refine ⟨h2, ?_⟩
  rw [h2]
  decide

/-- C8 (amended): the analysis operations never delete a record and never
change a load-time field: the trends computation returns the store
unchanged (its Year rewrite writes back equal values), and the ranking
handler, like the whole query dispatch, preserves the record count and
every record core (year, make, model, region, quantity, price); only the
derived Revenue column may be set in place by a revenue-metric ranking
query, which is the one deviation from the claim. -/
theorem c8_operations_preserve_record_cores (rows : List Row) (q : String) :
    (getYearlyTrends rows).2 = rows ∧
    ((handleRankingQuery rows q).2).map coreOf = rows.map coreOf ∧
    ((handleRankingQuery rows q).2).length = rows.length ∧
    ((processQuery rows q).2).map coreOf = rows.map coreOf := by
  have htrends : (getYearlyTrends rows).2 = rows := by
    show rows.map (fun r => { r with year := r.year }) = rows
    exact List.map_id' rows
  have hrank : ((handleRankingQuery rows q).2).map coreOf = rows.map coreOf ∧
      ((handleRankingQuery rows q).2).length = rows.length := by
    rw [handleRankingQuery]
    cases hp : parseTopN (lowerStr q) with
    | error e => exact ⟨rfl, rfl⟩
    | ok n =>
      simp only []
      by_cases hc : (!strHas (lowerStr q) "expensive" &&
          strHas (lowerStr q) "revenue") = true
      · simp only [hc, if_true, if_pos]
        constructor
        · rw [List.map_map]
          exact List.map_congr_left fun r _ => rfl
        · exact List.length_map _ _
      · simp only [hc, if_neg, if_false]
        exact ⟨rfl, rfl⟩
  refine ⟨htrends, hrank.1, hrank.2, ?_⟩
  rw [processQuery]
  cases hcl : classify q with
  | projection => rfl
  | comparison => rfl
  | ranking =>
    simp only []
    exact hrank.1
  | general => rfl
